import Mathlib

/-!
Shallow embedding of the active-keys repository (src/index.js, class
KeyWatcher) and proofs about the claims of its specification.

The JavaScript object `activeKeys` (a map from key identifier to a 32-bit
location bitmask) is modelled as an association list `List (String × Nat)`
whose values are the unsigned 32-bit patterns of the JS numbers.  All JS
bitwise operations used by the source (`1 << location`, `|=`, `&= ~bit`)
are sign-agnostic on the bit pattern, so Nat with explicit wrapping is a
faithful carrier.  Each `_handle*` method is a pure function from the
mapping to the new mapping together with a Bool recording whether
`_dispatch()` (the single change notification of that handler run) fired.
-/

namespace KeyWatcher

/-- The `activeKeys` object: key identifier to 32-bit location bitmask. -/
abbrev ActiveKeys := List (String × Nat)

/-- Property read `obj[k]` returning `undefined` as `none`. -/
def objGetOpt : ActiveKeys → String → Option Nat
  | [], _ => none
  | p :: rest, k => if p.1 = k then some p.2 else objGetOpt rest k

/-- The JS read `this.activeKeys[key] || 0`: the stored value, or 0 when
the key is absent (and when the stored value is 0, since `0 || 0 = 0`). -/
def objGet (m : ActiveKeys) (k : String) : Nat :=
  (objGetOpt m k).getD 0

/-- Property write `obj[k] = v`: update the entry in place if present,
otherwise append a new entry (JS string-keyed insertion order). -/
def objSet : ActiveKeys → String → Nat → ActiveKeys
  | [], k, v => [(k, v)]
  | p :: rest, k, v => if p.1 = k then (k, v) :: rest else p :: objSet rest k v

/-- Property removal `delete obj[k]`. -/
def objDelete : ActiveKeys → String → ActiveKeys
  | [], _ => []
  | p :: rest, k => if p.1 = k then objDelete rest k else p :: objDelete rest k

/-- All bits of a 32-bit word; `~x` in JS is `u32mask ^^^ x` on patterns. -/
def u32mask : Nat := 2 ^ 32 - 1

/-- JS `1 << location`: the shift count is taken modulo 32 (ECMAScript
ToUint32 of the right operand followed by `& 31`). -/
def locationBit (location : Nat) : Nat := 2 ^ (location % 32)

/-- The regular expression test of `_isNamedKey`:
`/^[A-Z][a-zA-Z0-9]+$/` — one ASCII uppercase letter followed by one or
more ASCII letters or digits. -/
def isNamedKey (key : String) : Bool :=
  match key.data with
  | [] => false
  | c :: rest =>
    c.isUpper && !rest.isEmpty && rest.all (fun d => d.isAlpha || d.isDigit)

/-- `_removeUnnamedKeys`: delete every entry whose key is not a named key;
the Bool reports whether anything was removed. -/
def removeUnnamedKeys (m : ActiveKeys) : ActiveKeys × Bool :=
  (m.filter (fun p => isNamedKey p.1), m.any (fun p => !isNamedKey p.1))

/-- `_handleModifiers(key)`: named keys first clear all unnamed entries;
the returned key is `null` (`none`) exactly for `"Dead"`; the Bool is the
`changed` flag produced by the cleanup. -/
def handleModifiers (m : ActiveKeys) (key : String) :
    ActiveKeys × Option String × Bool :=
  let r := if isNamedKey key then removeUnnamedKeys m else (m, false)
  (r.1, if key = "Dead" then none else some key, r.2)

/-- JS truthiness of the key returned by `_handleModifiers`:
`null` and the empty string are falsy. -/
def keyTruthy : Option String → Bool
  | none => false
  | some s => if s = "" then false else true

/-- `_handleKeydown({key, location})`.  The Bool records whether
`_dispatch()` fired. -/
def handleKeydown (m : ActiveKeys) (key : String) (location : Nat) :
    ActiveKeys × Bool :=
  let r := handleModifiers m key
  let m1 := r.1
  let newKey := r.2.1
  let changed := r.2.2
  if keyTruthy newKey then
    let k := newKey.getD ""
    let wasActive := objGet m1 k
    let m2 := objSet m1 k wasActive
    if wasActive &&& locationBit location = 0 then
      (objSet m2 k (wasActive ||| locationBit location),
       if wasActive = 0 then true else changed)
    else
      (m2, changed)
  else
    (m1, changed)

/-- `_handleKeyup({key, location})`.  The Bool records whether
`_dispatch()` fired. -/
def handleKeyup (m : ActiveKeys) (key : String) (location : Nat) :
    ActiveKeys × Bool :=
  let r := handleModifiers m key
  let m1 := r.1
  let newKey := r.2.1
  let changed := r.2.2
  if keyTruthy newKey then
    let k := newKey.getD ""
    if objGet m1 k = 0 then
      (m1, changed)
    else
      let v2 := objGet m1 k &&& (u32mask ^^^ locationBit location)
      let m2 := objSet m1 k v2
      if v2 = 0 then (objDelete m2 k, true) else (m2, changed)
  else
    (m1, changed)

/-- `_removeAll`: delete every key of a snapshot of `Object.keys`. -/
def removeAll (m : ActiveKeys) : ActiveKeys :=
  (m.map Prod.fst).foldl objDelete m

/-- `_handleBlur`: full reset via `_removeAll`, which always ends in an
unconditional `_dispatch()`. -/
def handleBlur (m : ActiveKeys) : ActiveKeys × Bool :=
  (removeAll m, true)

/-- `evt.type[0].toUpperCase() + evt.type.slice(1)` for a nonempty type. -/
def capFirst (s : String) : String :=
  match s.data with
  | [] => ""
  | c :: rest => String.mk (c.toUpper :: rest)

/-- Result of `handleEvent`: the new mapping, whether `_dispatch()`
fired, and whether `console.warn` ran; or a thrown JS `TypeError`. -/
abbrev EventResult := Except String (ActiveKeys × Bool × Bool)

/-- `handleEvent(evt)`: dynamic dispatch on the method name
`"_handle" + capitalized type`.  An empty type throws (reading
`toUpperCase` of `undefined`); the name `_handleModifiers` is found by the
lookup and is then called with the event object in place of a string key,
so `key.match` throws a `TypeError`; any other unmatched name reaches the
`console.warn` branch. -/
def handleEvent (m : ActiveKeys) (ty key : String) (location : Nat) :
    EventResult :=
  if ty = "" then
    Except.error "TypeError: cannot read property 0 of empty type"
  else
    let typeHandler := "_handle" ++ capFirst ty
    if typeHandler = "_handleKeydown" then
      let r := handleKeydown m key location
      Except.ok (r.1, r.2, false)
    else if typeHandler = "_handleKeyup" then
      let r := handleKeyup m key location
      Except.ok (r.1, r.2, false)
    else if typeHandler = "_handleBlur" then
      let r := handleBlur m
      Except.ok (r.1, r.2, false)
    else if typeHandler = "_handleModifiers" then
      Except.error "TypeError: key.match is not a function"
    else
      Except.ok (m, false, true)

/-- The three event kinds the tracker subscribes to. -/
inductive KWEvent where
  | keydown (key : String) (location : Nat)
  | keyup (key : String) (location : Nat)
  | blur
deriving DecidableEq

/-- One event handled by the tracker: new mapping plus dispatch flag. -/
def step (m : ActiveKeys) : KWEvent → ActiveKeys × Bool
  | .keydown k l => handleKeydown m k l
  | .keyup k l => handleKeyup m k l
  | .blur => handleBlur m

/-- State component of `step`. -/
def stepM (m : ActiveKeys) (e : KWEvent) : ActiveKeys := (step m e).1

/-- Replay a sequence of events from the initial empty mapping. -/
def replay (evs : List KWEvent) : ActiveKeys := evs.foldl stepM []

/-- A key-down or key-up event whose key is a nonempty unnamed
identifier (so no modifier normalization applies to it). -/
def plainEv : KWEvent → Bool
  | .keydown k _ => !isNamedKey k && !(k = "")
  | .keyup k _ => !isNamedKey k && !(k = "")
  | .blur => false

/-- Reference bookkeeping for claim C2: the set of (key, location mod 32)
pairs pressed and not yet released, as an insert-if-absent list. -/
def pressedStep (s : List (String × Nat)) : KWEvent → List (String × Nat)
  | .keydown k l => if (k, l % 32) ∈ s then s else (k, l % 32) :: s
  | .keyup k l => s.filter (fun q => !(q = (k, l % 32)))
  | .blur => s

/-- Pressed-and-unreleased pairs after a sequence of events. -/
def pressedReplay (evs : List KWEvent) : List (String × Nat) :=
  evs.foldl pressedStep []

/-! Helper lemmas about the association-list object operations. -/

theorem objGetOpt_objSet_self (m : ActiveKeys) (k : String) (v : Nat) :
    objGetOpt (objSet m k v) k = some v := by
  induction m with
  | nil => simp [objSet, objGetOpt]
  | cons p rest ih =>
    by_cases h : p.1 = k
    · simp [objSet, h, objGetOpt]
    · simp [objSet, h, objGetOpt, ih]

theorem objGetOpt_objSet_ne (m : ActiveKeys) (k k' : String) (v : Nat)
    (h : k' ≠ k) : objGetOpt (objSet m k v) k' = objGetOpt m k' := by
  induction m with
  | nil => simp [objSet, objGetOpt, Ne.symm h]
  | cons p rest ih =>
    by_cases hp : p.1 = k
    · subst hp
      simp [objSet, objGetOpt, Ne.symm h]
    · simp [objSet, hp, objGetOpt, ih]

theorem objSet_objSet (m : ActiveKeys) (k : String) (v w : Nat) :
    objSet (objSet m k v) k w = objSet m k w := by
  induction m with
  | nil => simp [objSet]
  | cons p rest ih =>
    by_cases h : p.1 = k
    · simp [objSet, h]
    · simp [objSet, h, ih]

theorem mem_objSet (m : ActiveKeys) (k : String) (v : Nat)
    (p : String × Nat) (hp : p ∈ objSet m k v) : p = (k, v) ∨ p ∈ m := by
  induction m with
  | nil => simpa [objSet] using hp
  | cons q rest ih =>
    by_cases h : q.1 = k
    · simp only [objSet, if_pos h, List.mem_cons] at hp
      rcases hp with hp | hp
      · exact Or.inl hp
      · exact Or.inr (List.mem_cons_of_mem q hp)
    · simp only [objSet, if_neg h, List.mem_cons] at hp
      rcases hp with hp | hp
      · exact Or.inr (hp ▸ List.mem_cons_self q rest)
      · rcases ih hp with hh | hh
        · exact Or.inl hh
        · exact Or.inr (List.mem_cons_of_mem q hh)

theorem mem_objDelete (m : ActiveKeys) (k : String) (p : String × Nat) :
    p ∈ objDelete m k ↔ p ∈ m ∧ p.1 ≠ k := by
  induction m with
  | nil => simp [objDelete]
  | cons q rest ih =>
    by_cases h : q.1 = k
    · simp only [objDelete, if_pos h, ih, List.mem_cons]
      constructor
      · rintro ⟨hp, hk⟩
        exact ⟨Or.inr hp, hk⟩
      · rintro ⟨hp | hp, hk⟩
        · exact absurd (hp ▸ h) hk
        · exact ⟨hp, hk⟩
    · simp only [objDelete, if_neg h, List.mem_cons, ih]
      constructor
      · rintro (hp | ⟨hp, hk⟩)
        · exact ⟨Or.inl hp, hp ▸ h⟩
        · exact ⟨Or.inr hp, hk⟩
      · rintro ⟨hp | hp, hk⟩
        · exact Or.inl hp
        · exact Or.inr ⟨hp, hk⟩

theorem objGetOpt_eq_none_iff (m : ActiveKeys) (k : String) :
    objGetOpt m k = none ↔ ∀ p ∈ m, p.1 ≠ k := by
  induction m with
  | nil => simp [objGetOpt]
  | cons p rest ih =>
    by_cases h : p.1 = k
    · simp [objGetOpt, h]
    · simp [objGetOpt, h, ih]

theorem objGetOpt_objDelete_self (m : ActiveKeys) (k : String) :
    objGetOpt (objDelete m k) k = none := by
  rw [objGetOpt_eq_none_iff]
  intro p hp
  exact ((mem_objDelete m k p).mp hp).2

theorem objGetOpt_objDelete_ne (m : ActiveKeys) (k k' : String)
    (h : k' ≠ k) : objGetOpt (objDelete m k) k' = objGetOpt m k' := by
  induction m with
  | nil => simp [objDelete]
  | cons p rest ih =>
    by_cases hp : p.1 = k
    · simp [objDelete, hp, objGetOpt, Ne.symm h, ih]
    · simp [objDelete, hp, objGetOpt, ih]

theorem mem_removeUnnamedKeys (m : ActiveKeys) (p : String × Nat) :
    p ∈ (removeUnnamedKeys m).1 ↔ p ∈ m ∧ isNamedKey p.1 = true := by
  simp [removeUnnamedKeys, List.mem_filter]

theorem removeUnnamedKeys_allNamed (m : ActiveKeys)
    (h : ∀ p ∈ m, isNamedKey p.1 = true) : removeUnnamedKeys m = (m, false) := by
  simp only [removeUnnamedKeys, Prod.mk.injEq]
  refine ⟨List.filter_eq_self.mpr h, ?_⟩
  simp only [List.any_eq_false]
  intro p hp
  simp [h p hp]

/-! Reductions of the handlers under modifier normalization. -/

theorem isNamedKey_Dead : isNamedKey "Dead" = true := by decide

theorem named_ne_empty {k : String} (h : isNamedKey k = true) : ¬ k = "" := by
  intro he
  subst he
  simp [isNamedKey] at h

theorem handleModifiers_plain (m : ActiveKeys) {k : String}
    (hk : isNamedKey k = false) : handleModifiers m k = (m, some k, false) := by
  have hd : ¬ k = "Dead" := by
    intro h
    rw [h, isNamedKey_Dead] at hk
    cases hk
  simp [handleModifiers, hk, hd]

theorem handleModifiers_named (m : ActiveKeys) {k : String}
    (hk : isNamedKey k = true) :
    handleModifiers m k =
      ((removeUnnamedKeys m).1,
       if k = "Dead" then none else some k,
       (removeUnnamedKeys m).2) := by
  simp [handleModifiers, hk]

theorem handleKeydown_plain (m : ActiveKeys) {k : String} (l : Nat)
    (hk : isNamedKey k = false) (hne : ¬ k = "") :
    handleKeydown m k l =
      if objGet m k &&& locationBit l = 0 then
        (objSet (objSet m k (objGet m k)) k (objGet m k ||| locationBit l),
         if objGet m k = 0 then true else false)
      else (objSet m k (objGet m k), false) := by
  simp [handleKeydown, handleModifiers_plain m hk, keyTruthy, hne]

theorem handleKeyup_plain (m : ActiveKeys) {k : String} (l : Nat)
    (hk : isNamedKey k = false) (hne : ¬ k = "") :
    handleKeyup m k l =
      if objGet m k = 0 then (m, false)
      else
        if objGet m k &&& (u32mask ^^^ locationBit l) = 0 then
          (objDelete (objSet m k (objGet m k &&& (u32mask ^^^ locationBit l))) k,
           true)
        else (objSet m k (objGet m k &&& (u32mask ^^^ locationBit l)), false) := by
  simp [handleKeyup, handleModifiers_plain m hk, keyTruthy, hne]

theorem handleKeydown_empty (m : ActiveKeys) (l : Nat) :
    handleKeydown m "" l = (m, false) := by
  simp [handleKeydown, handleModifiers_plain m (by decide : isNamedKey "" = false),
    keyTruthy]

theorem handleKeyup_empty (m : ActiveKeys) (l : Nat) :
    handleKeyup m "" l = (m, false) := by
  simp [handleKeyup, handleModifiers_plain m (by decide : isNamedKey "" = false),
    keyTruthy]

theorem handleKeydown_dead (m : ActiveKeys) (l : Nat) :
    handleKeydown m "Dead" l = removeUnnamedKeys m := by
  simp [handleKeydown, handleModifiers_named m isNamedKey_Dead, keyTruthy]

theorem handleKeyup_dead (m : ActiveKeys) (l : Nat) :
    handleKeyup m "Dead" l = removeUnnamedKeys m := by
  simp [handleKeyup, handleModifiers_named m isNamedKey_Dead, keyTruthy]

theorem handleKeydown_named (m : ActiveKeys) {k : String} (l : Nat)
    (hk : isNamedKey k = true) (hd : ¬ k = "Dead") :
    handleKeydown m k l =
      (let m1 := (removeUnnamedKeys m).1
       if objGet m1 k &&& locationBit l = 0 then
         (objSet (objSet m1 k (objGet m1 k)) k (objGet m1 k ||| locationBit l),
          if objGet m1 k = 0 then true else (removeUnnamedKeys m).2)
       else (objSet m1 k (objGet m1 k), (removeUnnamedKeys m).2)) := by
  have hne := named_ne_empty hk
  simp [handleKeydown, handleModifiers_named m hk, hd, keyTruthy, hne]

theorem handleKeyup_named (m : ActiveKeys) {k : String} (l : Nat)
    (hk : isNamedKey k = true) (hd : ¬ k = "Dead") :
    handleKeyup m k l =
      (let m1 := (removeUnnamedKeys m).1
       if objGet m1 k = 0 then (m1, (removeUnnamedKeys m).2)
       else
         if objGet m1 k &&& (u32mask ^^^ locationBit l) = 0 then
           (objDelete
             (objSet m1 k (objGet m1 k &&& (u32mask ^^^ locationBit l))) k,
            true)
         else
           (objSet m1 k (objGet m1 k &&& (u32mask ^^^ locationBit l)),
            (removeUnnamedKeys m).2)) := by
  have hne := named_ne_empty hk
  simp [handleKeyup, handleModifiers_named m hk, hd, keyTruthy, hne]

/-! The blur handler empties the mapping. -/

theorem foldl_objDelete_eq_nil (ks : List String) :
    ∀ m : ActiveKeys, (∀ p ∈ m, p.1 ∈ ks) → ks.foldl objDelete m = [] := by
  induction ks with
  | nil =>
    intro m h
    cases m with
    | nil => rfl
    | cons p rest => exact absurd (h p (List.mem_cons_self p rest)) (by simp)
  | cons k ks ih =>
    intro m h
    simp only [List.foldl_cons]
    apply ih
    intro p hp
    rcases (mem_objDelete m k p).mp hp with ⟨hm, hk⟩
    rcases List.mem_cons.mp (h p hm) with h1 | h1
    · exact absurd h1 hk
    · exact h1

theorem removeAll_eq_nil (m : ActiveKeys) : removeAll m = [] := by
  apply foldl_objDelete_eq_nil
  intro p hp
  exact List.mem_map_of_mem Prod.fst hp

theorem handleBlur_eq (m : ActiveKeys) : handleBlur m = ([], true) := by
  simp [handleBlur, removeAll_eq_nil]

/-! Small numeric facts about the 32-bit location bits. -/

theorem locationBit_ne_zero (l : Nat) : locationBit l ≠ 0 :=
  pow_ne_zero _ (by norm_num)

theorem testBit_exists_of_ne_zero {n : Nat} (h : n ≠ 0) :
    ∃ i, n.testBit i = true := by
  by_contra hc
  push_neg at hc
  have hc' : ∀ i, n.testBit i = false := by
    intro i
    cases hbit : n.testBit i
    · rfl
    · exact absurd hbit (hc i)
  refine h (Nat.eq_of_testBit_eq fun i => ?_)
  simp [hc' i]

theorem lor_ne_zero_right (a b : Nat) (h : b ≠ 0) : a ||| b ≠ 0 := by
  intro hz
  rcases testBit_exists_of_ne_zero h with ⟨i, hi⟩
  have : (a ||| b).testBit i = true := by
    simp [Nat.testBit_lor, hi]
  rw [hz] at this
  simp at this

theorem land_ne_zero_left {a b : Nat} (h : a &&& b ≠ 0) : a ≠ 0 := by
  intro hz
  subst hz
  simp at h

theorem testBit_locationBit (l i : Nat) :
    (locationBit l).testBit i = decide (l % 32 = i) := by
  simp [locationBit, Nat.testBit_two_pow]

theorem testBit_u32mask (i : Nat) : u32mask.testBit i = decide (i < 32) := by
  unfold u32mask
  exact Nat.testBit_two_pow_sub_one 32 i

theorem lor_land_self_ne_zero (a b : Nat) (hb : b ≠ 0) :
    (a ||| b) &&& b ≠ 0 := by
  intro hz
  rcases testBit_exists_of_ne_zero hb with ⟨i, hi⟩
  have hbit : ((a ||| b) &&& b).testBit i = true := by
    simp [Nat.testBit_land, Nat.testBit_lor, hi]
  rw [hz] at hbit
  simp at hbit

theorem objGetOpt_removeUnnamed_none (m : ActiveKeys) (k : String)
    (h : objGetOpt m k = none) : objGetOpt (removeUnnamedKeys m).1 k = none := by
  rw [objGetOpt_eq_none_iff] at h ⊢
  intro p hp
  exact h p ((mem_removeUnnamedKeys m p).mp hp).1

theorem objGetOpt_some_mem {m : ActiveKeys} {k : String} {v : Nat}
    (h : objGetOpt m k = some v) : (k, v) ∈ m := by
  induction m with
  | nil => simp [objGetOpt] at h
  | cons p rest ih =>
    by_cases hp : p.1 = k
    · simp only [objGetOpt, if_pos hp, Option.some.injEq] at h
      have : p = (k, v) := Prod.ext hp h
      exact this ▸ List.mem_cons_self p rest
    · simp only [objGetOpt, if_neg hp] at h
      exact List.mem_cons_of_mem p (ih h)

/-! Preservation of absence of the "Dead" key. -/

theorem deadFree_keydown (m : ActiveKeys) (k : String) (l : Nat)
    (h : objGetOpt m "Dead" = none) :
    objGetOpt (handleKeydown m k l).1 "Dead" = none := by
  cases hk : isNamedKey k with
  | false =>
    by_cases hne : k = ""
    · subst hne
      rw [handleKeydown_empty]
      exact h
    · have hkd : ("Dead" : String) ≠ k := by
        intro hh
        rw [← hh, isNamedKey_Dead] at hk
        cases hk
      rw [handleKeydown_plain m l hk hne]
      split
      · dsimp only
        rw [objGetOpt_objSet_ne _ _ _ _ hkd, objGetOpt_objSet_ne _ _ _ _ hkd]
        exact h
      · dsimp only
        rw [objGetOpt_objSet_ne _ _ _ _ hkd]
        exact h
  | true =>
    have hrm := objGetOpt_removeUnnamed_none m "Dead" h
    by_cases hd : k = "Dead"
    · subst hd
      rw [handleKeydown_dead]
      exact hrm
    · have hkd : ("Dead" : String) ≠ k := fun hh => hd hh.symm
      rw [handleKeydown_named m l hk hd]
      dsimp only
      split
      · dsimp only
        rw [objGetOpt_objSet_ne _ _ _ _ hkd, objGetOpt_objSet_ne _ _ _ _ hkd]
        exact hrm
      · dsimp only
        rw [objGetOpt_objSet_ne _ _ _ _ hkd]
        exact hrm

theorem deadFree_keyup (m : ActiveKeys) (k : String) (l : Nat)
    (h : objGetOpt m "Dead" = none) :
    objGetOpt (handleKeyup m k l).1 "Dead" = none := by
  cases hk : isNamedKey k with
  | false =>
    by_cases hne : k = ""
    · subst hne
      rw [handleKeyup_empty]
      exact h
    · have hkd : ("Dead" : String) ≠ k := by
        intro hh
        rw [← hh, isNamedKey_Dead] at hk
        cases hk
      rw [handleKeyup_plain m l hk hne]
      split
      · exact h
      · split
        · dsimp only
          rw [objGetOpt_objDelete_ne _ _ _ hkd, objGetOpt_objSet_ne _ _ _ _ hkd]
          exact h
        · dsimp only
          rw [objGetOpt_objSet_ne _ _ _ _ hkd]
          exact h
  | true =>
    have hrm := objGetOpt_removeUnnamed_none m "Dead" h
    by_cases hd : k = "Dead"
    · subst hd
      rw [handleKeyup_dead]
      exact hrm
    · have hkd : ("Dead" : String) ≠ k := fun hh => hd hh.symm
      rw [handleKeyup_named m l hk hd]
      dsimp only
      split
      · exact hrm
      · split
        · dsimp only
          rw [objGetOpt_objDelete_ne _ _ _ hkd, objGetOpt_objSet_ne _ _ _ _ hkd]
          exact hrm
        · dsimp only
          rw [objGetOpt_objSet_ne _ _ _ _ hkd]
          exact hrm

/-! Preservation of the all-values-nonzero invariant. -/

theorem allNonzero_removeUnnamed (m : ActiveKeys)
    (h : ∀ p ∈ m, p.2 ≠ 0) : ∀ p ∈ (removeUnnamedKeys m).1, p.2 ≠ 0 :=
  fun p hp => h p ((mem_removeUnnamedKeys m p).mp hp).1

theorem allNonzero_bitLogicDown (m1 : ActiveKeys) (k : String) (l : Nat)
    (h1 : ∀ p ∈ m1, p.2 ≠ 0) :
    ∀ p ∈ (if objGet m1 k &&& locationBit l = 0 then
        (objSet (objSet m1 k (objGet m1 k)) k
          (objGet m1 k ||| locationBit l),
         if objGet m1 k = 0 then true else c)
      else (objSet m1 k (objGet m1 k), c)).1, p.2 ≠ 0 := by
  split
  · dsimp only
    rw [objSet_objSet]
    intro p hp
    rcases mem_objSet _ _ _ p hp with hh | hh
    · subst hh
      exact lor_ne_zero_right _ _ (locationBit_ne_zero l)
    · exact h1 p hh
  · dsimp only
    intro p hp
    rcases mem_objSet _ _ _ p hp with hh | hh
    · subst hh
      exact land_ne_zero_left (by assumption)
    · exact h1 p hh

theorem allNonzero_keydown (m : ActiveKeys) (k : String) (l : Nat)
    (h : ∀ p ∈ m, p.2 ≠ 0) : ∀ p ∈ (handleKeydown m k l).1, p.2 ≠ 0 := by
  cases hk : isNamedKey k with
  | false =>
    by_cases hne : k = ""
    · subst hne
      rw [handleKeydown_empty]
      exact h
    · rw [handleKeydown_plain m l hk hne]
      exact allNonzero_bitLogicDown m k l h
  | true =>
    have h1 := allNonzero_removeUnnamed m h
    by_cases hd : k = "Dead"
    · subst hd
      rw [handleKeydown_dead]
      exact h1
    · rw [handleKeydown_named m l hk hd]
      exact allNonzero_bitLogicDown _ k l h1

theorem allNonzero_bitLogicUp (m1 : ActiveKeys) (k : String) (l : Nat)
    (h1 : ∀ p ∈ m1, p.2 ≠ 0) :
    ∀ p ∈ (if objGet m1 k = 0 then (m1, c)
      else
        if objGet m1 k &&& (u32mask ^^^ locationBit l) = 0 then
          (objDelete
            (objSet m1 k (objGet m1 k &&& (u32mask ^^^ locationBit l))) k,
           true)
        else
          (objSet m1 k (objGet m1 k &&& (u32mask ^^^ locationBit l)),
           c)).1, p.2 ≠ 0 := by
  split
  · exact h1
  · split
    · dsimp only
      intro p hp
      rcases (mem_objDelete _ _ p).mp hp with ⟨hp2, hpk⟩
      rcases mem_objSet _ _ _ p hp2 with hh | hh
      · exact absurd (congrArg Prod.fst hh) hpk
      · exact h1 p hh
    · dsimp only
      intro p hp
      rcases mem_objSet _ _ _ p hp with hh | hh
      · subst hh
        assumption
      · exact h1 p hh

theorem allNonzero_keyup (m : ActiveKeys) (k : String) (l : Nat)
    (h : ∀ p ∈ m, p.2 ≠ 0) : ∀ p ∈ (handleKeyup m k l).1, p.2 ≠ 0 := by
  cases hk : isNamedKey k with
  | false =>
    by_cases hne : k = ""
    · subst hne
      rw [handleKeyup_empty]
      exact h
    · rw [handleKeyup_plain m l hk hne]
      exact allNonzero_bitLogicUp m k l h
  | true =>
    have h1 := allNonzero_removeUnnamed m h
    by_cases hd : k = "Dead"
    · subst hd
      rw [handleKeyup_dead]
      exact h1
    · rw [handleKeyup_named m l hk hd]
      exact allNonzero_bitLogicUp _ k l h1

/-! Machinery for claim C2: the bitmask of each key mirrors the set of
pressed-and-unreleased locations (taken modulo 32). -/

theorem land_locationBit_ne_zero_of_testBit {w l : Nat}
    (h : w.testBit (l % 32) = true) : w &&& locationBit l ≠ 0 := by
  intro hz
  have hbit : (w &&& locationBit l).testBit (l % 32) = true := by
    simp [Nat.testBit_land, h, testBit_locationBit]
  rw [hz] at hbit
  simp at hbit

theorem testBit_of_land_locationBit_ne_zero {w l : Nat}
    (h : w &&& locationBit l ≠ 0) : w.testBit (l % 32) = true := by
  rcases testBit_exists_of_ne_zero h with ⟨i, hi⟩
  rw [Nat.testBit_land, testBit_locationBit] at hi
  rcases Bool.and_eq_true_iff.mp hi with ⟨h1, h2⟩
  have h3 : l % 32 = i := of_decide_eq_true h2
  rw [h3]
  exact h1

theorem objGetOpt_of_objGet_ne_zero {m : ActiveKeys} {k : String}
    (h : objGet m k ≠ 0) : objGetOpt m k = some (objGet m k) := by
  cases hg : objGetOpt m k with
  | none =>
    have : objGet m k = 0 := by simp [objGet, hg]
    exact absurd this h
  | some w =>
    simp [objGet, hg]

theorem testBit_keyupMask (v0 l i : Nat) :
    (v0 &&& (u32mask ^^^ locationBit l)).testBit i =
      (v0.testBit i && (decide (i < 32) && !decide (l % 32 = i))) := by
  rw [Nat.testBit_land, Nat.testBit_xor, testBit_u32mask, testBit_locationBit]
  by_cases h1 : i < 32
  · by_cases h2 : l % 32 = i <;> simp [h1, h2]
  · have h2 : ¬ (l % 32 = i) := by
      have := Nat.mod_lt l (y := 32) (by norm_num)
      omega
    simp [h1, h2]

/-- Relation between the concrete mapping and the abstract set of
pressed-and-unreleased (key, location mod 32) pairs: locations in the set
are below 32, an absent key has no pressed location, and a present key's
bitmask has exactly the bits of its pressed locations (hence is nonzero). -/
def Inv (m : ActiveKeys) (s : List (String × Nat)) : Prop :=
  (∀ q ∈ s, q.2 < 32) ∧
  ∀ k : String,
    (objGetOpt m k = none → ∀ i : Nat, (k, i) ∉ s) ∧
    (∀ v, objGetOpt m k = some v →
      v ≠ 0 ∧ ∀ i : Nat, ((k, i) ∈ s ↔ v.testBit i = true))

theorem inv_nil : Inv [] [] :=
  ⟨by simp, fun _ => ⟨fun _ i => by simp, fun v hv => by simp [objGetOpt] at hv⟩⟩

theorem inv_keydown {m : ActiveKeys} {s : List (String × Nat)}
    (k : String) (l : Nat) (hk : isNamedKey k = false) (hne : ¬ k = "")
    (hI : Inv m s) :
    Inv (handleKeydown m k l).1 (pressedStep s (KWEvent.keydown k l)) := by
  obtain ⟨hSb, hMap⟩ := hI
  rw [handleKeydown_plain m l hk hne]
  simp only [pressedStep]
  by_cases hc : objGet m k &&& locationBit l = 0
  · have hnotin : (k, l % 32) ∉ s := by
      intro hmem
      cases hg : objGetOpt m k with
      | none => exact (hMap k).1 hg (l % 32) hmem
      | some w =>
        have hw := (hMap k).2 w hg
        have htb : w.testBit (l % 32) = true := (hw.2 (l % 32)).mp hmem
        have hgw : objGet m k = w := by simp [objGet, hg]
        rw [hgw] at hc
        exact land_locationBit_ne_zero_of_testBit htb hc
    rw [if_pos hc, if_neg hnotin]
    dsimp only
    rw [objSet_objSet]
    refine ⟨?_, fun k' => ?_⟩
    · intro q hq
      rcases List.mem_cons.mp hq with hq | hq
      · subst hq
        exact Nat.mod_lt l (by norm_num)
      · exact hSb q hq
    · by_cases hkk : k' = k
      · subst hkk
        refine ⟨?_, ?_⟩
        · intro hnone
          rw [objGetOpt_objSet_self] at hnone
          cases hnone
        · intro v hv
          rw [objGetOpt_objSet_self] at hv
          have hveq := Option.some.inj hv
          subst hveq
          refine ⟨lor_ne_zero_right _ _ (locationBit_ne_zero l), fun i => ?_⟩
          rw [Nat.testBit_lor, testBit_locationBit]
          constructor
          · intro hmem
            rcases List.mem_cons.mp hmem with hh | hh
            · have hij : i = l % 32 := congrArg Prod.snd hh
              subst hij
              simp
            · cases hg : objGetOpt m k' with
              | none => exact absurd hh ((hMap k').1 hg i)
              | some w =>
                have hw := (hMap k').2 w hg
                have htb : w.testBit i = true := (hw.2 i).mp hh
                have hgw : objGet m k' = w := by simp [objGet, hg]
                rw [hgw, htb]
                simp
          · intro hbit
            rcases Bool.or_eq_true_iff.mp hbit with hb | hb
            · cases hg : objGetOpt m k' with
              | none =>
                have hgz : objGet m k' = 0 := by simp [objGet, hg]
                rw [hgz] at hb
                simp at hb
              | some w =>
                have hw := (hMap k').2 w hg
                have hgw : objGet m k' = w := by simp [objGet, hg]
                rw [hgw] at hb
                exact List.mem_cons_of_mem _ ((hw.2 i).mpr hb)
            · have hij : l % 32 = i := of_decide_eq_true hb
              rw [← hij]
              exact List.mem_cons_self _ _
      · have hset := objGetOpt_objSet_ne m k k' (objGet m k ||| locationBit l) hkk
        refine ⟨?_, ?_⟩
        · intro hnone i
          rw [hset] at hnone
          intro hmem
          rcases List.mem_cons.mp hmem with hh | hh
          · exact hkk (congrArg Prod.fst hh)
          · exact (hMap k').1 hnone i hh
        · intro v hv
          rw [hset] at hv
          rcases (hMap k').2 v hv with ⟨hv0, hbits⟩
          refine ⟨hv0, fun i => ?_⟩
          rw [← hbits i]
          constructor
          · intro hmem
            rcases List.mem_cons.mp hmem with hh | hh
            · exact absurd (congrArg Prod.fst hh) hkk
            · exact hh
          · exact List.mem_cons_of_mem _
  · have hv0ne : objGet m k ≠ 0 := by
      intro h0
      rw [h0] at hc
      simp at hc
    have hg : objGetOpt m k = some (objGet m k) := objGetOpt_of_objGet_ne_zero hv0ne
    have hw := (hMap k).2 _ hg
    have hin : (k, l % 32) ∈ s :=
      (hw.2 (l % 32)).mpr (testBit_of_land_locationBit_ne_zero hc)
    rw [if_neg hc, if_pos hin]
    dsimp only
    refine ⟨hSb, fun k' => ?_⟩
    by_cases hkk : k' = k
    · subst hkk
      refine ⟨?_, ?_⟩
      · intro hnone
        rw [objGetOpt_objSet_self] at hnone
        cases hnone
      · intro v hv
        rw [objGetOpt_objSet_self] at hv
        have hveq := Option.some.inj hv
        subst hveq
        exact hw
    · have hset := objGetOpt_objSet_ne m k k' (objGet m k) hkk
      refine ⟨?_, ?_⟩
      · intro hnone
        rw [hset] at hnone
        exact (hMap k').1 hnone
      · intro v hv
        rw [hset] at hv
        exact (hMap k').2 v hv

theorem inv_keyup {m : ActiveKeys} {s : List (String × Nat)}
    (k : String) (l : Nat) (hk : isNamedKey k = false) (hne : ¬ k = "")
    (hI : Inv m s) :
    Inv (handleKeyup m k l).1 (pressedStep s (KWEvent.keyup k l)) := by
  obtain ⟨hSb, hMap⟩ := hI
  rw [handleKeyup_plain m l hk hne]
  simp only [pressedStep]
  have hmem_s' : ∀ q, q ∈ s.filter (fun q => !(q = (k, l % 32))) ↔
      q ∈ s ∧ q ≠ (k, l % 32) := by
    intro q
    rw [List.mem_filter]
    simp
  have hSb' : ∀ q ∈ s.filter (fun q => !(q = (k, l % 32))), q.2 < 32 :=
    fun q hq => hSb q ((hmem_s' q).mp hq).1
  by_cases hv : objGet m k = 0
  · rw [if_pos hv]
    have hgnone : objGetOpt m k = none := by
      cases hg : objGetOpt m k with
      | none => rfl
      | some w =>
        have hwne := ((hMap k).2 w hg).1
        have hgw : objGet m k = w := by simp [objGet, hg]
        rw [hgw] at hv
        exact absurd hv hwne
    have hfeq : s.filter (fun q => !(q = (k, l % 32))) = s := by
      apply List.filter_eq_self.mpr
      intro q hq
      have hqne : q ≠ (k, l % 32) := by
        intro hqe
        subst hqe
        exact (hMap k).1 hgnone (l % 32) hq
      simp [hqne]
    rw [hfeq]
    exact ⟨hSb, hMap⟩
  · rw [if_neg hv]
    have hg : objGetOpt m k = some (objGet m k) := objGetOpt_of_objGet_ne_zero hv
    obtain ⟨hv0ne, hbits⟩ := (hMap k).2 _ hg
    by_cases hz : objGet m k &&& (u32mask ^^^ locationBit l) = 0
    · rw [if_pos hz]
      dsimp only
      refine ⟨hSb', fun k' => ?_⟩
      by_cases hkk : k' = k
      · subst hkk
        refine ⟨?_, ?_⟩
        · intro _ i hmem
          rcases (hmem_s' _).mp hmem with ⟨hins, hneq⟩
          have hib : (objGet m k').testBit i = true := (hbits i).mp hins
          have hilt : i < 32 := hSb (k', i) hins
          have hij : ¬ (l % 32 = i) := by
            intro hh
            exact hneq (by rw [hh])
          have hbb : (objGet m k' &&& (u32mask ^^^ locationBit l)).testBit i
              = true := by
            rw [testBit_keyupMask]
            simp [hib, hilt, hij]
          rw [hz] at hbb
          simp at hbb
        · intro v hvv
          rw [objGetOpt_objDelete_self] at hvv
          cases hvv
      · refine ⟨?_, ?_⟩
        · intro hnone i
          rw [objGetOpt_objDelete_ne _ _ _ hkk,
            objGetOpt_objSet_ne m k k' _ hkk] at hnone
          intro hmem
          exact (hMap k').1 hnone i ((hmem_s' _).mp hmem).1
        · intro v hvv
          rw [objGetOpt_objDelete_ne _ _ _ hkk,
            objGetOpt_objSet_ne m k k' _ hkk] at hvv
          obtain ⟨h1, h2⟩ := (hMap k').2 v hvv
          refine ⟨h1, fun i => ?_⟩
          rw [← h2 i]
          constructor
          · intro hmem
            exact ((hmem_s' _).mp hmem).1
          · intro hmem
            refine (hmem_s' _).mpr ⟨hmem, ?_⟩
            intro hqe
            exact hkk (congrArg Prod.fst hqe)
    · rw [if_neg hz]
      dsimp only
      refine ⟨hSb', fun k' => ?_⟩
      by_cases hkk : k' = k
      · subst hkk
        refine ⟨?_, ?_⟩
        · intro hnone
          rw [objGetOpt_objSet_self] at hnone
          cases hnone
        · intro v hvv
          rw [objGetOpt_objSet_self] at hvv
          have hveq := Option.some.inj hvv
          subst hveq
          refine ⟨hz, fun i => ?_⟩
          rw [testBit_keyupMask]
          constructor
          · intro hmem
            rcases (hmem_s' _).mp hmem with ⟨hins, hneq⟩
            have hib : (objGet m k').testBit i = true := (hbits i).mp hins
            have hilt : i < 32 := hSb _ hins
            have hij : ¬ (l % 32 = i) := by
              intro hh
              exact hneq (by rw [hh])
            simp [hib, hilt, hij]
          · intro hbit
            rcases Bool.and_eq_true_iff.mp hbit with ⟨h1, h23⟩
            rcases Bool.and_eq_true_iff.mp h23 with ⟨h2, h3⟩
            refine (hmem_s' _).mpr ⟨(hbits i).mpr h1, ?_⟩
            intro hqe
            have hij : i = l % 32 := congrArg Prod.snd hqe
            rw [hij] at h3
            simp at h3
      · refine ⟨?_, ?_⟩
        · intro hnone i
          rw [objGetOpt_objSet_ne m k k' _ hkk] at hnone
          intro hmem
          exact (hMap k').1 hnone i ((hmem_s' _).mp hmem).1
        · intro v hvv
          rw [objGetOpt_objSet_ne m k k' _ hkk] at hvv
          obtain ⟨h1, h2⟩ := (hMap k').2 v hvv
          refine ⟨h1, fun i => ?_⟩
          rw [← h2 i]
          constructor
          · intro hmem
            exact ((hmem_s' _).mp hmem).1
          · intro hmem
            refine (hmem_s' _).mpr ⟨hmem, ?_⟩
            intro hqe
            exact hkk (congrArg Prod.fst hqe)

theorem inv_foldl (evs : List KWEvent) :
    ∀ (m : ActiveKeys) (s : List (String × Nat)),
      (∀ e ∈ evs, plainEv e = true) → Inv m s →
      Inv (evs.foldl stepM m) (evs.foldl pressedStep s) := by
  induction evs with
  | nil =>
    intro m s _ hI
    exact hI
  | cons e evs ih =>
    intro m s hp hI
    simp only [List.foldl_cons]
    have hpe := hp e (List.mem_cons_self e evs)
    have hptail : ∀ x ∈ evs, plainEv x = true :=
      fun x hx => hp x (List.mem_cons_of_mem e hx)
    apply ih _ _ hptail
    cases e with
    | keydown key loc =>
      simp only [plainEv, Bool.and_eq_true, Bool.not_eq_true',
        decide_eq_false_iff_not] at hpe
      exact inv_keydown key loc hpe.1 hpe.2 hI
    | keyup key loc =>
      simp only [plainEv, Bool.and_eq_true, Bool.not_eq_true',
        decide_eq_false_iff_not] at hpe
      exact inv_keyup key loc hpe.1 hpe.2 hI
    | blur => cases hpe

theorem foldl_stepM_pres {P : ActiveKeys → Prop}
    (hdn : ∀ m k l, P m → P (handleKeydown m k l).1)
    (hup : ∀ m k l, P m → P (handleKeyup m k l).1)
    (hnil : P []) :
    ∀ (evs : List KWEvent) (m : ActiveKeys), P m → P (evs.foldl stepM m) := by
  intro evs
  induction evs with
  | nil =>
    intro m h
    exact h
  | cons e evs ih =>
    intro m h
    simp only [List.foldl_cons]
    apply ih
    cases e with
    | keydown k l => exact hdn m k l h
    | keyup k l => exact hup m k l h
    | blur =>
      have hb : stepM m KWEvent.blur = [] := by
        simp [stepM, step, handleBlur_eq]
      rw [hb]
      exact hnil

/-! Claims. -/

/-- C1, amended: after handling a focus-loss (blur) event the active-key
mapping is empty, and a change notification is always emitted by that
handling — including when the mapping was already empty before the event
(`_removeAll` calls `_dispatch()` unconditionally). -/
theorem claimC1 (m : ActiveKeys) : handleBlur m = ([], true) :=
  handleBlur_eq m

/-- C1 counterexample: on an initially empty mapping, blur handling still
emits a change notification, refuting "a change notification is emitted
iff the mapping was non-empty immediately before the event". -/
theorem claimC1_cex :
    ¬ ((handleBlur ([] : ActiveKeys)).2 = true ↔ ([] : ActiveKeys) ≠ []) := by
  decide

/-- C2 counterexample: after keydown of "a" at location 0 followed by
keydown of "Shift" at location 1 (a sequence with no key-up at all, hence
with every key-up trivially matched), "a" still has a pressed unreleased
location, yet "a" is absent from the replayed mapping: the named-key
arrival removed it.  The claimed equality of the key set with the
pressed-key set fails at the key "a". -/
theorem claimC2_cex :
    ¬ ((objGetOpt
          (replay [KWEvent.keydown "a" 0, KWEvent.keydown "Shift" 1])
          "a").isSome =
        (pressedReplay
          [KWEvent.keydown "a" 0, KWEvent.keydown "Shift" 1]).any
          (fun q => decide (q.1 = "a"))) := by
  decide

/-- C2, amended: for every finite sequence of key-down and key-up events
whose keys are nonempty unnamed identifiers (so that neither the named-key
cleanup nor the "Dead" suppression applies), replaying the sequence from
the empty mapping yields a mapping containing exactly the keys with at
least one location (taken modulo 32) pressed but not yet released.  The
matched-pairing hypothesis of the original claim is not needed: an
unmatched key-up is a no-op on both sides. -/
theorem claimC2 (evs : List KWEvent) (h : ∀ e ∈ evs, plainEv e = true)
    (k : String) :
    (objGetOpt (replay evs) k).isSome =
      (pressedReplay evs).any (fun q => decide (q.1 = k)) := by
  have hI : Inv (replay evs) (pressedReplay evs) :=
    inv_foldl evs [] [] h inv_nil
  obtain ⟨hSb, hMap⟩ := hI
  cases hg : objGetOpt (replay evs) k with
  | none =>
    simp only [hg, Option.isSome_none]
    cases hany : (pressedReplay evs).any (fun q => decide (q.1 = k)) with
    | false => rfl
    | true =>
      rcases List.any_eq_true.mp hany with ⟨q, hq, hqk⟩
      have hq1 : q.1 = k := of_decide_eq_true hqk
      have hqm : (k, q.2) ∈ pressedReplay evs := by
        have hqe : q = (k, q.2) := Prod.ext hq1 rfl
        rw [← hqe]
        exact hq
      exact absurd hqm ((hMap k).1 hg q.2)
  | some v =>
    simp only [hg, Option.isSome_some]
    obtain ⟨hv0, hbits⟩ := (hMap k).2 v hg
    rcases testBit_exists_of_ne_zero hv0 with ⟨i, hi⟩
    have hmem : (k, i) ∈ pressedReplay evs := (hbits i).mpr hi
    symm
    rw [List.any_eq_true]
    exact ⟨(k, i), hmem, by simp⟩

/-- Witness for C2 at a concrete plain sequence and key. -/
theorem claimC2_w :
    (objGetOpt (replay [KWEvent.keydown "a" 0, KWEvent.keyup "b" 3])
        "a").isSome =
      (pressedReplay [KWEvent.keydown "a" 0, KWEvent.keyup "b" 3]).any
        (fun q => decide (q.1 = "a")) :=
  claimC2 [KWEvent.keydown "a" 0, KWEvent.keyup "b" 3] (by decide) "a"

/-- C3 counterexample: the second Shift keydown (location 2, after
location 1) adds a bit to an already-active key and emits no change
notification, refuting "a change notification emitted after each of the
two steps". -/
theorem claimC3_cex :
    (handleKeydown (handleKeydown [] "Shift" 1).1 "Shift" 2).2 = false := by
  decide

/-- C3, amended: keydown Shift at location 1 then at location 2 yields
the mapping with Shift mapped to 0b110, with a change notification after
the first step only (the second alters the bitmask of an already-active
key without notifying); keyup at location 1 then yields Shift mapped to
0b100 without removing the entry (and no notification), and keyup at
location 2 yields the empty mapping (with a notification). -/
theorem claimC3 :
    handleKeydown [] "Shift" 1 = ([("Shift", 2)], true) ∧
    handleKeydown [("Shift", 2)] "Shift" 2 = ([("Shift", 6)], false) ∧
    handleKeyup [("Shift", 6)] "Shift" 1 = ([("Shift", 4)], false) ∧
    handleKeyup [("Shift", 4)] "Shift" 2 = ([], true) := by
  decide

/-- C4 counterexample: the event type "modifiers" is not key-down,
key-up or focus-loss, yet its handling does not log a warning and raises
a TypeError: the dynamic method-name lookup resolves it to the internal
`_handleModifiers`, which is then called with the event object instead of
a string key. -/
theorem claimC4_cex :
    handleEvent [] "modifiers" "x" 0 =
      Except.error "TypeError: key.match is not a function" := by
  rfl

/-- C4, amended: for every event whose type is nonempty and whose
derived handler name matches none of the four internal `_handle` methods
(in particular any nonempty type other than keydown, keyup, blur and
modifiers, up to capitalization of the first letter), the handling logs a
warning, raises no error, does not dispatch, and leaves the mapping
unchanged.  Types resolving to `_handleModifiers`, and the empty type,
instead raise a TypeError. -/
theorem claimC4 (m : ActiveKeys) (ty key : String) (l : Nat)
    (hne : ¬ ty = "")
    (h1 : ¬ ("_handle" ++ capFirst ty = "_handleKeydown"))
    (h2 : ¬ ("_handle" ++ capFirst ty = "_handleKeyup"))
    (h3 : ¬ ("_handle" ++ capFirst ty = "_handleBlur"))
    (h4 : ¬ ("_handle" ++ capFirst ty = "_handleModifiers")) :
    handleEvent m ty key l = Except.ok (m, false, true) := by
  simp [handleEvent, hne, h1, h2, h3, h4]

/-- Witness for C4 at the unrecognized event type "wheel". -/
theorem claimC4_w : handleEvent [] "wheel" "x" 0 = Except.ok ([], false, true) :=
  claimC4 [] "wheel" "x" 0 (by decide) (by decide) (by decide) (by decide)
    (by decide)

/-- C5 counterexample: with the unnamed key "a" active, a key-up of
"Shift" — a key that is not active — is not a no-op: the named-key
cleanup removes "a" from the mapping and a change notification fires. -/
theorem claimC5_cex :
    objGet [("a", 1)] "Shift" = 0 ∧
    handleKeyup [("a", 1)] "Shift" 0 ≠ ([("a", 1)], false) ∧
    handleKeyup [("a", 1)] "Shift" 0 = ([], true) := by
  decide

/-- C5, amended: a key-up for a key that is not currently active is a
benign no-op — mapping unchanged and no change notification — provided
the key is unnamed, or no unnamed key is active in the mapping (otherwise
the named-key cleanup itself changes the mapping and notifies). -/
theorem claimC5 (m : ActiveKeys) (k : String) (l : Nat)
    (hinactive : objGet m k = 0)
    (hside : isNamedKey k = false ∨ ∀ p ∈ m, isNamedKey p.1 = true) :
    handleKeyup m k l = (m, false) := by
  cases hk : isNamedKey k with
  | false =>
    by_cases hne : k = ""
    · subst hne
      exact handleKeyup_empty m l
    · rw [handleKeyup_plain m l hk hne, if_pos hinactive]
  | true =>
    have hall : ∀ p ∈ m, isNamedKey p.1 = true := by
      rcases hside with hf | hf
      · rw [hk] at hf
        cases hf
      · exact hf
    by_cases hd : k = "Dead"
    · subst hd
      rw [handleKeyup_dead, removeUnnamedKeys_allNamed m hall]
    · rw [handleKeyup_named m l hk hd, removeUnnamedKeys_allNamed m hall]
      dsimp only
      rw [if_pos hinactive]

/-- Witness for C5: key-up of the inactive unnamed key "q". -/
theorem claimC5_w : handleKeyup [] "q" 7 = ([], false) :=
  claimC5 [] "q" 7 (by decide) (Or.inl (by decide))

/-- C6: a key-down of a named key leaves no unnamed key in the mapping
(every currently-active unnamed key is removed); in particular, from the
mapping with "a" at bit 0, keydown of "Shift" at location 1 yields the
mapping with only "Shift" at bit 1 and one change notification. -/
theorem claimC6 :
    (∀ (m : ActiveKeys) (k : String) (l : Nat), isNamedKey k = true →
        ∀ p ∈ (handleKeydown m k l).1, isNamedKey p.1 = true) ∧
    handleKeydown [("a", 1)] "Shift" 1 = ([("Shift", 2)], true) := by
  constructor
  · intro m k l hk p hp
    by_cases hd : k = "Dead"
    · subst hd
      rw [handleKeydown_dead] at hp
      exact ((mem_removeUnnamedKeys m p).mp hp).2
    · rw [handleKeydown_named m l hk hd] at hp
      dsimp only at hp
      have h1 : ∀ q ∈ (removeUnnamedKeys m).1, isNamedKey q.1 = true :=
        fun q hq => ((mem_removeUnnamedKeys m q).mp hq).2
      revert hp
      split
      · intro hp
        rw [objSet_objSet] at hp
        rcases mem_objSet _ _ _ p hp with hh | hh
        · subst hh
          exact hk
        · exact h1 p hh
      · intro hp
        rcases mem_objSet _ _ _ p hp with hh | hh
        · subst hh
          exact hk
        · exact h1 p hh
  · decide

/-- Witness for C6: keydown of "Alt" over an active unnamed "x"; the only
entry of the resulting mapping is the named "Alt". -/
theorem claimC6_w : isNamedKey (("Alt", 1) : String × Nat).1 = true :=
  claimC6.1 [("x", 1)] "Alt" 0 (by decide) ("Alt", 1) (by decide)

/-- C7: a repeated key-down for the same (key, location) pair, with no
intervening key-up, leaves the mapping unchanged and emits no change
notification. -/
theorem claimC7 (m : ActiveKeys) (k : String) (l : Nat) :
    handleKeydown (handleKeydown m k l).1 k l =
      ((handleKeydown m k l).1, false) := by
  cases hk : isNamedKey k with
  | false =>
    by_cases hne : k = ""
    · subst hne
      rw [handleKeydown_empty, handleKeydown_empty]
    · rw [handleKeydown_plain m l hk hne]
      by_cases hc : objGet m k &&& locationBit l = 0
      · rw [if_pos hc]
        dsimp only
        rw [objSet_objSet]
        rw [handleKeydown_plain _ l hk hne]
        have hgv : objGet (objSet m k (objGet m k ||| locationBit l)) k =
            objGet m k ||| locationBit l := by
          simp [objGet, objGetOpt_objSet_self]
        rw [hgv]
        rw [if_neg (lor_land_self_ne_zero _ _ (locationBit_ne_zero l))]
        rw [objSet_objSet]
      · rw [if_neg hc]
        dsimp only
        rw [handleKeydown_plain _ l hk hne]
        have hgv : objGet (objSet m k (objGet m k)) k = objGet m k := by
          simp [objGet, objGetOpt_objSet_self]
        rw [hgv, if_neg hc, objSet_objSet]
  | true =>
    by_cases hd : k = "Dead"
    · subst hd
      rw [handleKeydown_dead m l]
      rw [handleKeydown_dead _ l]
      exact removeUnnamedKeys_allNamed _
        (fun q hq => ((mem_removeUnnamedKeys m q).mp hq).2)
    · rw [handleKeydown_named m l hk hd]
      dsimp only
      have h1 : ∀ q ∈ (removeUnnamedKeys m).1, isNamedKey q.1 = true :=
        fun q hq => ((mem_removeUnnamedKeys m q).mp hq).2
      by_cases hc : objGet (removeUnnamedKeys m).1 k &&& locationBit l = 0
      · rw [if_pos hc]
        dsimp only
        rw [objSet_objSet]
        rw [handleKeydown_named _ l hk hd]
        have hall2 : ∀ q ∈ objSet (removeUnnamedKeys m).1 k
            (objGet (removeUnnamedKeys m).1 k ||| locationBit l),
            isNamedKey q.1 = true := by
          intro q hq
          rcases mem_objSet _ _ _ q hq with hh | hh
          · subst hh
            exact hk
          · exact h1 q hh
        rw [removeUnnamedKeys_allNamed _ hall2]
        dsimp only
        have hgv : objGet (objSet (removeUnnamedKeys m).1 k
              (objGet (removeUnnamedKeys m).1 k ||| locationBit l)) k =
            objGet (removeUnnamedKeys m).1 k ||| locationBit l := by
          simp [objGet, objGetOpt_objSet_self]
        rw [hgv]
        rw [if_neg (lor_land_self_ne_zero _ _ (locationBit_ne_zero l))]
        rw [objSet_objSet]
      · rw [if_neg hc]
        dsimp only
        rw [handleKeydown_named _ l hk hd]
        have hall2 : ∀ q ∈ objSet (removeUnnamedKeys m).1 k
            (objGet (removeUnnamedKeys m).1 k), isNamedKey q.1 = true := by
          intro q hq
          rcases mem_objSet _ _ _ q hq with hh | hh
          · subst hh
            exact hk
          · exact h1 q hh
        rw [removeUnnamedKeys_allNamed _ hall2]
        dsimp only
        have hgv : objGet (objSet (removeUnnamedKeys m).1 k
              (objGet (removeUnnamedKeys m).1 k)) k =
            objGet (removeUnnamedKeys m).1 k := by
          simp [objGet, objGetOpt_objSet_self]
        rw [hgv, if_neg hc, objSet_objSet]

/-- C8: the key identifier "Dead" is never present in the mapping after
replaying any sequence of key-down, key-up and focus-loss events from the
empty mapping (hence at no observable point of any sequence). -/
theorem claimC8 (evs : List KWEvent) : objGetOpt (replay evs) "Dead" = none :=
  foldl_stepM_pres (P := fun m => objGetOpt m "Dead" = none)
    deadFree_keydown deadFree_keyup rfl evs [] rfl

/-- C9: at every observable point (any mapping reached by replaying
events from the empty mapping), a key present in the mapping never has
bitmask value zero; equivalently a key is present iff at least one
location bit is set for it. -/
theorem claimC9 (evs : List KWEvent) (k : String) (v : Nat)
    (hv : objGetOpt (replay evs) k = some v) : v ≠ 0 := by
  have hall : ∀ p ∈ replay evs, p.2 ≠ 0 :=
    foldl_stepM_pres (P := fun st => ∀ p ∈ st, p.2 ≠ 0)
      allNonzero_keydown allNonzero_keyup (by simp) evs [] (by simp)
  exact hall (k, v) (objGetOpt_some_mem hv)

/-- Witness for C9: after keydown of "b" at location 0 the stored bitmask
is 1, which is nonzero. -/
theorem claimC9_w :
    objGetOpt (replay [KWEvent.keydown "b" 0]) "b" = some 1 ∧ (1 : Nat) ≠ 0 :=
  ⟨by decide, claimC9 [KWEvent.keydown "b" 0] "b" 1 (by decide)⟩

/-- C10: the location bit is 2 to the power (location mod 32) — the JS
`1 << location` with 32-bit shift semantics — so the key-down and key-up
handlers cannot distinguish two locations that are congruent modulo 32. -/
theorem claimC10 (m : ActiveKeys) (k : String) (l l' : Nat)
    (h : l % 32 = l' % 32) :
    locationBit l = 2 ^ (l % 32) ∧
    handleKeydown m k l = handleKeydown m k l' ∧
    handleKeyup m k l = handleKeyup m k l' := by
  have hb : locationBit l = locationBit l' := by
    unfold locationBit
    rw [h]
  refine ⟨rfl, ?_, ?_⟩
  · simp only [handleKeydown, hb]
  · simp only [handleKeyup, hb]

/-- Witness for C10: locations 32 and 0 are indistinguishable. -/
theorem claimC10_w :
    locationBit 32 = 2 ^ (32 % 32) ∧
    handleKeydown [] "a" 32 = handleKeydown [] "a" 0 ∧
    handleKeyup [] "a" 32 = handleKeyup [] "a" 0 :=
  claimC10 [] "a" 32 0 (by decide)

end KeyWatcher
